import Mathlib

/-!
Verification of the packet framing and repacketization layer of the
`opus-codec` wrapper crate.

The crate is a safety wrapper over a vendored native codec library.  The Rust
sources under `src/` perform argument validation, error-code translation and
zero-length-frame filtering; the framing algorithms themselves (TOC parsing,
padding, repacketization) live in the vendored native library and are modelled
here from the design document's description of the packet format (§4, §6, §7
of the specification).  Definitions carrying a `Modelled from the spec:` doc
comment embed that native layer; the remaining definitions are direct
translations of the Rust wrapper code.
-/

namespace OpusCodec

/-- Modelled from the spec: numeric error codes of the wrapped native
library's ABI (`opus_defines.h` of the vendored codec sources, which are not
under `src/`); `error.rs` imports these names from the generated bindings. -/
def OPUS_OK : Int := 0

/-- Modelled from the spec: native code for a bad argument. -/
def OPUS_BAD_ARG : Int := -1

/-- Modelled from the spec: native code for an output buffer that is too
small. -/
def OPUS_BUFFER_TOO_SMALL : Int := -2

/-- Modelled from the spec: native code for an internal error. -/
def OPUS_INTERNAL_ERROR : Int := -3

/-- Modelled from the spec: native code for an invalid packet. -/
def OPUS_INVALID_PACKET : Int := -4

/-- Modelled from the spec: native code for an unimplemented feature. -/
def OPUS_UNIMPLEMENTED : Int := -5

/-- Modelled from the spec: native code for an invalid state. -/
def OPUS_INVALID_STATE : Int := -6

/-- Modelled from the spec: native code for an allocation failure. -/
def OPUS_ALLOC_FAIL : Int := -7

/-- Error variants of the wrapper crate, from `src/src/error.rs`. -/
inductive Error where
  | badArg
  | bufferTooSmall
  | internalError
  | invalidPacket
  | unimplemented
  | invalidState
  | allocFail
  | unknown (code : Int)
deriving DecidableEq, Repr

/-- `Error::from_code` from `src/src/error.rs`: map a native error code to
the crate's `Error` enum; unrecognised codes map to `Unknown`. -/
def Error.from_code (code : Int) : Error :=
  if code = OPUS_BAD_ARG then .badArg
  else if code = OPUS_BUFFER_TOO_SMALL then .bufferTooSmall
  else if code = OPUS_INTERNAL_ERROR then .internalError
  else if code = OPUS_INVALID_PACKET then .invalidPacket
  else if code = OPUS_UNIMPLEMENTED then .unimplemented
  else if code = OPUS_INVALID_STATE then .invalidState
  else if code = OPUS_ALLOC_FAIL then .allocFail
  else .unknown code

/-- `Error::to_code` from `src/src/error.rs`: map an `Error` back to the
native code. -/
def Error.to_code : Error → Int
  | .badArg => OPUS_BAD_ARG
  | .bufferTooSmall => OPUS_BUFFER_TOO_SMALL
  | .internalError => OPUS_INTERNAL_ERROR
  | .invalidPacket => OPUS_INVALID_PACKET
  | .unimplemented => OPUS_UNIMPLEMENTED
  | .invalidState => OPUS_INVALID_STATE
  | .allocFail => OPUS_ALLOC_FAIL
  | .unknown code => code

instance {ε α : Type} [DecidableEq ε] [DecidableEq α] : DecidableEq (Except ε α) := fun x y =>
  match x, y with
  | .ok a, .ok b =>
    if h : a = b then .isTrue (by rw [h])
    else .isFalse (by intro hc; cases hc; exact h rfl)
  | .error a, .error b =>
    if h : a = b then .isTrue (by rw [h])
    else .isFalse (by intro hc; cases hc; exact h rfl)
  | .ok _, .error _ => .isFalse (by intro h; cases h)
  | .error _, .ok _ => .isFalse (by intro h; cases h)

/-- Modelled from the spec: the §7 error taxonomy of the native framing
layer (`InvalidArgument`, `InvalidPacket`, `IncompatibleFrame`,
`CapacityExceeded`, plus the output-buffer-too-small condition of §4.3);
the native routines implementing it are in the vendored codec sources, not
under `src/`. -/
inductive ErrKind where
  | invalidArgument
  | invalidPacket
  | incompatibleFrame
  | capacityExceeded
  | bufferTooSmall
deriving DecidableEq, Repr

/-- Modelled from the spec: the native code each §7 error kind surfaces as
at the C ABI (§4.3 names `InvalidPacket`/`BadArg` for compatibility and
capacity failures; we use the invalid-packet code). -/
def ErrKind.code : ErrKind → Int
  | .invalidArgument => OPUS_BAD_ARG
  | .invalidPacket => OPUS_INVALID_PACKET
  | .incompatibleFrame => OPUS_INVALID_PACKET
  | .capacityExceeded => OPUS_INVALID_PACKET
  | .bufferTooSmall => OPUS_BUFFER_TOO_SMALL

/-- Largest value representable in the Rust `i32` type; the wrapper converts
lengths with `i32::try_from`, failing with `BadArg` beyond this bound. -/
def i32Max : Nat := 2147483647

/-- Modelled from the spec: the continuation-byte length descriptor of §6 —
a byte of value 255 means "add 255 and read another byte"; any value 0–254
terminates and is added to the accumulated total.  Returns the decoded value
and the number of descriptor bytes consumed, or `none` when the descriptor is
truncated. -/
def parseSize : List Nat → Option (Nat × Nat)
  | [] => none
  | b :: rest =>
    if b = 255 then
      match parseSize rest with
      | none => none
      | some (v, k) => some (255 + v, k + 1)
    else some (b, 1)

/-- Modelled from the spec: the unique §6 continuation-byte encoding of a
length value — `v / 255` bytes of 255 followed by the remainder byte. -/
def encodeSize (v : Nat) : List Nat :=
  List.replicate (v / 255) 255 ++ [v % 255]

/-- Modelled from the spec: read `m` consecutive §6 length descriptors (the
per-frame sizes of a VBR code-3 packet); returns the sizes and the total
number of descriptor bytes consumed. -/
def readSizes : Nat → List Nat → Option (List Nat × Nat)
  | 0, _ => some ([], 0)
  | m + 1, bytes =>
    match parseSize bytes with
    | none => none
    | some (sz, k) =>
      match readSizes m (bytes.drop k) with
      | none => none
      | some (szs, k2) => some (sz :: szs, k + k2)

/-- Lay out consecutive frame sizes as `(start, size)` spans beginning at a
given offset. -/
def spansFrom (start : Nat) : List Nat → List (Nat × Nat)
  | [] => []
  | s :: rest => (start, s) :: spansFrom (start + s) rest

/-- Extract the byte content of each span from a packet. -/
def sliceSpans (packet : List Nat) (spans : List (Nat × Nat)) : List (List Nat) :=
  spans.map fun s => (packet.drop s.1).take s.2

/-- The configuration bits of a TOC byte (everything above the 2-bit
frame-count code): `toc & 0xFC`. -/
def tocBase (toc : Nat) : Nat := toc % 256 / 4 * 4

/-- Result of the native packet parse: the TOC byte, the offset at which
frame payloads begin, and the `(start, size)` span of every frame —
including zero-length frames, which the native layer allows but the Rust
wrapper later filters out. -/
structure ParseResult where
  toc : Nat
  payloadOffset : Nat
  spans : List (Nat × Nat)
deriving DecidableEq, Repr

/-- Modelled from the spec: `opus_packet_parse` of the vendored native
library, following §4.1 and the §6 input packet format.  The TOC byte's low
two bits select the frame-count code: code 0 is one frame spanning the rest;
code 1 is two equal halves (failing on an odd remainder); code 2 reads one
length descriptor for the first of two frames; code 3 reads a frame-count
byte (bit 7 = VBR flag, bit 6 = padding flag per the §6 padding descriptor
rule, low bits = count, valid range 1–48), then the padding descriptor when
flagged, then one length descriptor per frame except the last under VBR or a
single shared descriptor under CBR, the last frame taking the remainder
before the padding region. -/
def opus_packet_parse (packet : List Nat) : Except ErrKind ParseResult :=
  match packet with
  | [] => .error .invalidArgument
  | toc :: body =>
    match toc % 4 with
    | 0 => .ok ⟨toc, 1, [(1, body.length)]⟩
    | 1 =>
      if body.length % 2 = 0 then
        .ok ⟨toc, 1, [(1, body.length / 2), (1 + body.length / 2, body.length / 2)]⟩
      else .error .invalidPacket
    | 2 =>
      match parseSize body with
      | none => .error .invalidPacket
      | some (sz, k) =>
        if 1 + k + sz ≤ body.length + 1 then
          .ok ⟨toc, 1 + k,
            [(1 + k, sz), (1 + k + sz, body.length + 1 - (1 + k) - sz)]⟩
        else .error .invalidPacket
    | _ =>
      match body with
      | [] => .error .invalidPacket
      | fc :: body2 =>
        if fc % 64 = 0 ∨ 48 < fc % 64 then .error .invalidPacket
        else
          match (if fc / 64 % 2 = 1 then parseSize body2 else some (0, 0)) with
          | none => .error .invalidPacket
          | some (padLen, kp) =>
            if body2.length + 2 < 2 + kp + padLen then .error .invalidPacket
            else if fc / 128 % 2 = 1 then
              match readSizes (fc % 64 - 1) (body2.drop kp) with
              | none => .error .invalidPacket
              | some (szs, consumed) =>
                if 2 + kp + consumed + szs.sum ≤ body2.length + 2 - padLen then
                  .ok ⟨toc, 2 + kp + consumed,
                    spansFrom (2 + kp + consumed)
                      (szs ++
                        [body2.length + 2 - padLen - (2 + kp + consumed) - szs.sum])⟩
                else .error .invalidPacket
            else
              match parseSize (body2.drop kp) with
              | none => .error .invalidPacket
              | some (sz, k) =>
                if 2 + kp + k + (fc % 64 - 1) * sz ≤ body2.length + 2 - padLen then
                  .ok ⟨toc, 2 + kp + k,
                    spansFrom (2 + kp + k)
                      (List.replicate (fc % 64 - 1) sz ++
                        [body2.length + 2 - padLen - (2 + kp + k) -
                          (fc % 64 - 1) * sz])⟩
                else .error .invalidPacket

/-- The frame-extraction loop of `packet_parse` in `src/src/packet.rs`:
zero-length frames are skipped, every kept span is bounds-checked against the
packet (`end > packet.len()` fails with `InvalidPacket`, returned as `none`
here), and the surviving spans are materialised as sub-slices. -/
def framesFromSpans (packet : List Nat) : List (Nat × Nat) → Option (List (List Nat))
  | [] => some []
  | (start, size) :: rest =>
    if size = 0 then framesFromSpans packet rest
    else if start + size ≤ packet.length then
      match framesFromSpans packet rest with
      | none => none
      | some fs => some ((packet.drop start).take size :: fs)
    else none

/-- `packet_parse` from `src/src/packet.rs`: rejects the empty packet with
`BadArg`, rejects lengths beyond `i32`, calls the native parse, maps native
error codes through `Error::from_code`, and filters/bounds-checks the
returned frames. -/
def packet_parse (packet : List Nat) : Except Error (Nat × Nat × List (List Nat)) :=
  if packet.isEmpty then .error .badArg
  else if i32Max < packet.length then .error .badArg
  else
    match opus_packet_parse packet with
    | .error e => .error (Error.from_code e.code)
    | .ok r =>
      match framesFromSpans packet r.spans with
      | none => .error .invalidPacket
      | some frames => .ok (r.toc, r.payloadOffset, frames)

/-- All elements of the list are equal (used to choose the CBR encoding: all
frame sizes except the last equal). -/
def allSame : List Nat → Bool
  | [] => true
  | x :: xs => xs.all (· == x)

/-- Modelled from the spec: the §4.3 output encoding — a frame-count-code-3
packet, CBR (shared single length descriptor) when all frame sizes except
the last are equal, VBR (one descriptor per frame except the last) otherwise;
the last frame always takes the remainder. -/
def encodeFramesCode3 (toc : Nat) (fs : List (List Nat)) : List Nat :=
  let sizes := fs.map List.length
  if allSame sizes.dropLast then
    (tocBase toc + 3) :: fs.length :: (encodeSize sizes.headI ++ fs.flatten)
  else
    (tocBase toc + 3) :: (128 + fs.length) ::
      ((sizes.dropLast.map encodeSize).flatten ++ fs.flatten)

/-- Modelled from the spec: the minimal frame-count/length encoding that
§4.2's unpad rewrites to — code 0 for one frame, code 1 for two equal
frames, code 2 for two unequal frames, and the §4.3 code-3 scheme
otherwise. -/
def encodeFramesMinimal (toc : Nat) (fs : List (List Nat)) : List Nat :=
  match fs with
  | [f] => tocBase toc :: f
  | [f1, f2] =>
    if f1.length = f2.length then (tocBase toc + 1) :: (f1 ++ f2)
    else (tocBase toc + 2) :: (encodeSize f1.length ++ f1 ++ f2)
  | _ => encodeFramesCode3 toc fs

/-- Modelled from the spec: the accumulation state of the native
`OpusRepacketizer` — the TOC class recorded on the first push and the
ordered frame list collected from pushed packets (§3, §4.3). -/
structure OpusRepacketizer where
  toc : Nat
  frames : List (List Nat)
deriving DecidableEq, Repr

/-- Modelled from the spec: `opus_repacketizer_init` clears the accumulated
frames, priming a new accumulation cycle (§4.3). -/
def opus_repacketizer_init (s : OpusRepacketizer) : OpusRepacketizer :=
  { toc := s.toc, frames := [] }

/-- Modelled from the spec: `opus_repacketizer_cat` (§4.3 push) — parses the
packet, rejects a TOC configuration incompatible with previously pushed
frames, rejects an append that would exceed the 48-frame budget with the
`CapacityExceeded` kind, and otherwise appends every frame of the packet
(the native layer keeps zero-length frames).  Every failure leaves the state
unchanged (atomic append, §7). -/
def opus_repacketizer_cat (s : OpusRepacketizer) (packet : List Nat) :
    OpusRepacketizer × Except ErrKind Unit :=
  match opus_packet_parse packet with
  | .error e => (s, .error e)
  | .ok r =>
    if s.frames.length ≠ 0 ∧ tocBase s.toc ≠ tocBase r.toc then
      (s, .error .incompatibleFrame)
    else if 48 < s.frames.length + r.spans.length then
      (s, .error .capacityExceeded)
    else
      ({ toc := if s.frames.length = 0 then r.toc else s.toc,
         frames := s.frames ++ sliceSpans packet r.spans }, .ok ())

/-- Modelled from the spec: `opus_repacketizer_out_range` (§4.3) — fails with
the `InvalidArgument` kind when `begin < 0`, `end <= begin` or `end` exceeds
the accumulated frame count; otherwise encodes frames `[begin, end)` with the
code-3 scheme, failing when the result does not fit in `maxlen` bytes.  A
pure read: the accumulated state is not modified. -/
def opus_repacketizer_out_range (s : OpusRepacketizer) (lo hi : Int) (maxlen : Nat) :
    Except ErrKind (List Nat) :=
  if lo < 0 ∨ hi ≤ lo ∨ (s.frames.length : Int) < hi then .error .invalidArgument
  else if maxlen <
      (encodeFramesCode3 s.toc ((s.frames.drop lo.toNat).take (hi - lo).toNat)).length then
    .error .bufferTooSmall
  else .ok (encodeFramesCode3 s.toc ((s.frames.drop lo.toNat).take (hi - lo).toNat))

/-- Modelled from the spec: `opus_repacketizer_out` emits every accumulated
frame, i.e. the range `[0, nb_frames)` (§4.3). -/
def opus_repacketizer_out (s : OpusRepacketizer) (maxlen : Nat) :
    Except ErrKind (List Nat) :=
  opus_repacketizer_out_range s 0 (s.frames.length : Int) maxlen

/-- `Repacketizer::push` from `src/src/repacketizer.rs`: rejects an empty
packet with `BadArg` before touching the native state, rejects lengths beyond
`i32`, then delegates to the native `opus_repacketizer_cat`, mapping a
nonzero return through `Error::from_code`. -/
def Repacketizer.push (s : OpusRepacketizer) (packet : List Nat) :
    OpusRepacketizer × Except Error Unit :=
  if packet.isEmpty then (s, .error .badArg)
  else if i32Max < packet.length then (s, .error .badArg)
  else
    match opus_repacketizer_cat s packet with
    | (s2, .ok ()) => (s2, .ok ())
    | (s2, .error e) => (s2, .error (Error.from_code e.code))

/-- `Repacketizer::frames` from `src/src/repacketizer.rs`: the number of
frames currently queued, straight from the native state. -/
def Repacketizer.frames (s : OpusRepacketizer) : Int := s.frames.length

/-- `Repacketizer::out_range` from `src/src/repacketizer.rs`: rejects an
empty output buffer, `begin < 0` and `end <= begin` with `BadArg`, rejects a
buffer longer than `i32`, then delegates to the native routine; on success
returns the bytes written and the updated buffer (written prefix, remaining
bytes untouched). -/
def Repacketizer.out_range (s : OpusRepacketizer) (lo hi : Int) (out : List Nat) :
    Except Error (Nat × List Nat) :=
  if out.isEmpty then .error .badArg
  else if lo < 0 ∨ hi ≤ lo then .error .badArg
  else if i32Max < out.length then .error .badArg
  else
    match opus_repacketizer_out_range s lo hi out.length with
    | .error e => .error (Error.from_code e.code)
    | .ok enc => .ok (enc.length, enc ++ out.drop enc.length)

/-- `Repacketizer::out` from `src/src/repacketizer.rs`: rejects an empty
output buffer with `BadArg`, rejects a buffer longer than `i32`, then
delegates to the native `opus_repacketizer_out`. -/
def Repacketizer.out (s : OpusRepacketizer) (out : List Nat) :
    Except Error (Nat × List Nat) :=
  if out.isEmpty then .error .badArg
  else if i32Max < out.length then .error .badArg
  else
    match opus_repacketizer_out s out.length with
    | .error e => .error (Error.from_code e.code)
    | .ok enc => .ok (enc.length, enc ++ out.drop enc.length)

/-- The VBR length-descriptor bytes of a frame list: one §6 descriptor per
frame except the last. -/
def vbrDescBytes (fs : List (List Nat)) : List Nat :=
  ((fs.map List.length).dropLast.map encodeSize).flatten

/-- Byte length of a §4.2 VBR-with-padding layout before the padding
descriptor and padding bytes are added: TOC byte, frame-count byte, VBR
length descriptors, frame payloads. -/
def padBase (fs : List (List Nat)) : Nat :=
  2 + (vbrDescBytes fs).length + (fs.map List.length).sum

/-- Modelled from the spec: solve §4.2's exact byte accounting — find the
padding amount whose descriptor bytes plus padding bytes total exactly `t`,
i.e. `P + (P / 255 + 1) = t + 1`.  The §6 descriptor scheme cannot account
for every target (`t % 256 = 255` has no solution). -/
def padAmountFor (t : Nat) : Option Nat :=
  if t % 256 = 255 then none else some (255 * (t / 256) + t % 256)

/-- Modelled from the spec: the §4.2 padded layout — TOC rewritten to
frame-count code 3, frame-count byte with VBR and padding flags set, the
padding-length descriptor immediately after it (§6), the VBR length
descriptors, the frame payloads, then the padding bytes (values ignorable,
written as zeros). -/
def padLayout (toc : Nat) (fs : List (List Nat)) (padAmount : Nat) : List Nat :=
  (tocBase toc + 3) :: (192 + fs.length) ::
    (encodeSize padAmount ++ vbrDescBytes fs ++ fs.flatten ++ List.replicate padAmount 0)

/-- Modelled from the spec: `opus_packet_pad` (§4.2) — growing to the same
length is a no-op; otherwise the packet is parsed, normalized to the code-3
VBR layout with the padding flag set, and a padding amount satisfying the
exact §4.2 byte accounting is inserted; when no amount can account exactly
for the requested growth the packet cannot be padded to that length. -/
def opus_packet_pad (buf : List Nat) (len newLen : Nat) : Except ErrKind (List Nat) :=
  if newLen = len then .ok buf
  else
    match opus_packet_parse (buf.take len) with
    | .error e => .error e
    | .ok r =>
      let fs := sliceSpans (buf.take len) r.spans
      match (if padBase fs + 1 ≤ newLen then padAmountFor (newLen - padBase fs - 1)
             else none) with
      | none => .error .bufferTooSmall
      | some pa => .ok (padLayout r.toc fs pa ++ buf.drop newLen)

/-- Modelled from the spec: `opus_packet_unpad` (§4.2) — parses the packet
(the parse excludes the padding region), rewrites the frame-count/length
encoding to the minimal form and returns the new logical length; bytes past
the rewritten packet are left in place. -/
def opus_packet_unpad (buf : List Nat) (len : Nat) : Except ErrKind (Nat × List Nat) :=
  match opus_packet_parse (buf.take len) with
  | .error e => .error e
  | .ok r =>
    let enc := encodeFramesMinimal r.toc (sliceSpans (buf.take len) r.spans)
    if len < enc.length then .error .bufferTooSmall
    else .ok (enc.length, enc ++ buf.drop enc.length)

/-- `packet_pad` from `src/src/packet.rs`: rejects `new_len < len` and
`new_len > packet.len()` with `BadArg`, rejects lengths beyond `i32`, then
delegates to the native `opus_packet_pad`, mapping a nonzero return through
`Error::from_code`. -/
def packet_pad (packet : List Nat) (len newLen : Nat) : Except Error (List Nat) :=
  if newLen < len ∨ packet.length < newLen then .error .badArg
  else if i32Max < len ∨ i32Max < newLen then .error .badArg
  else
    match opus_packet_pad packet len newLen with
    | .error e => .error (Error.from_code e.code)
    | .ok buf2 => .ok buf2

/-- `packet_unpad` from `src/src/packet.rs`: rejects `len > packet.len()`
with `BadArg`, rejects lengths beyond `i32`, then delegates to the native
`opus_packet_unpad`, returning the new logical length and the updated
buffer. -/
def packet_unpad (packet : List Nat) (len : Nat) : Except Error (Nat × List Nat) :=
  if packet.length < len then .error .badArg
  else if i32Max < len then .error .badArg
  else
    match opus_packet_unpad packet len with
    | .error e => .error (Error.from_code e.code)
    | .ok result => .ok result

/-- `multistream_packet_pad` from `src/src/packet.rs`: the same `BadArg`
precondition checks as `packet_pad`, followed by a call to the native
`opus_multistream_packet_pad`.  The native multistream routine applies the
§4.2 algorithm independently per constituent stream over self-delimited
boundaries the specification does not lay out, so it is taken here as an
arbitrary parameter; the wrapper's validation does not depend on it. -/
def multistream_packet_pad
    (native : List Nat → Nat → Nat → Int → Except ErrKind (List Nat))
    (packet : List Nat) (len newLen : Nat) (nbStreams : Int) : Except Error (List Nat) :=
  if newLen < len ∨ packet.length < newLen then .error .badArg
  else if i32Max < len ∨ i32Max < newLen then .error .badArg
  else
    match native packet len newLen nbStreams with
    | .error e => .error (Error.from_code e.code)
    | .ok buf2 => .ok buf2

/-- A packet is in canonical (minimal) form when it parses successfully and
re-encoding its frames minimally reproduces it byte for byte — the form
§4.2's unpad rewrites packets to. -/
def isCanonicalPacket (p : List Nat) : Bool :=
  match opus_packet_parse p with
  | .error _ => false
  | .ok r => encodeFramesMinimal r.toc (sliceSpans p r.spans) == p

/-- Success test for `Except`, usable in decidable closed statements. -/
def exceptOk {ε α : Type} : Except ε α → Bool
  | .ok _ => true
  | .error _ => false

/-- The frame count implied by the TOC frame-count code (§4.1): 1 for code
0, 2 for codes 1 and 2, and the frame-count byte's count field for code 3. -/
def impliedFrameCount (packet : List Nat) : Nat :=
  match packet with
  | [] => 0
  | toc :: body =>
    match toc % 4 with
    | 0 => 1
    | 1 => 2
    | 2 => 2
    | _ =>
      match body with
      | [] => 0
      | fc :: _ => fc % 64

/-- C10: the error-code translation is a right inverse: converting any native
code to the `Error` enum and back yields the same code, including codes with
no named variant (routed through `Unknown`). -/
theorem error_code_roundtrip (code : Int) :
    (Error.from_code code).to_code = code := by
  unfold Error.from_code
  split_ifs <;> simp_all [Error.to_code]

/-- C9: the empty packet is rejected with the `BadArg` error by both
`packet_parse` and `Repacketizer::push`, the latter leaving the repacketizer
state untouched. -/
theorem empty_packet_badarg :
    packet_parse [] = .error .badArg ∧
      ∀ s : OpusRepacketizer, Repacketizer.push s [] = (s, .error .badArg) :=
  ⟨rfl, fun _ => rfl⟩

/-- C7: `packet_pad` fails with `BadArg` whenever the target length is below
the current length or beyond the buffer's capacity, and the identical
precondition check governs `multistream_packet_pad` (for any behaviour of
the native multistream routine). -/
theorem pad_precondition_badarg (packet : List Nat) (len newLen : Nat)
    (native : List Nat → Nat → Nat → Int → Except ErrKind (List Nat)) (nbStreams : Int)
    (h : newLen < len ∨ packet.length < newLen) :
    packet_pad packet len newLen = .error .badArg ∧
      multistream_packet_pad native packet len newLen nbStreams = .error .badArg := by
  constructor
  · unfold packet_pad
    rw [if_pos h]
  · unfold multistream_packet_pad
    rw [if_pos h]

/-- Witness for C7 at a concrete shrinking request. -/
theorem pad_precondition_badarg_witness :
    packet_pad [0, 7] 5 3 = .error .badArg ∧
      multistream_packet_pad (fun _ _ _ _ => .ok []) [0, 7] 5 3 1 = .error .badArg :=
  pad_precondition_badarg [0, 7] 5 3 (fun _ _ _ _ => .ok []) 1 (by decide)

/-- C6: `Repacketizer::out_range` fails with `BadArg` whenever `begin < 0`,
`end <= begin`, or `end` exceeds the accumulated frame count. -/
theorem out_range_invalid_range_badarg (s : OpusRepacketizer) (lo hi : Int)
    (out : List Nat)
    (h : lo < 0 ∨ hi ≤ lo ∨ (s.frames.length : Int) < hi) :
    Repacketizer.out_range s lo hi out = .error .badArg := by
  unfold Repacketizer.out_range opus_repacketizer_out_range
  split_ifs <;> rfl

/-- Witness for C6 at a concrete out-of-range request. -/
theorem out_range_invalid_range_badarg_witness :
    Repacketizer.out_range ⟨0, [[7]]⟩ 0 2 [0, 0, 0, 0] = .error .badArg :=
  out_range_invalid_range_badarg ⟨0, [[7]]⟩ 0 2 [0, 0, 0, 0] (by decide)

/-- A failing native append leaves the state component untouched. -/
theorem cat_error_state (s : OpusRepacketizer) (p : List Nat) (e : ErrKind)
    (h : (opus_repacketizer_cat s p).2 = .error e) :
    (opus_repacketizer_cat s p).1 = s := by
  unfold opus_repacketizer_cat at h ⊢
  cases hp : opus_packet_parse p with
  | error e2 => simp [hp]
  | ok r =>
    simp only [hp] at h ⊢
    split_ifs at h ⊢ <;> simp_all

/-- C5: a failed `push` leaves the repacketizer's accumulated state
unchanged — the state value, the reported frame count, and the bytes any
subsequent `out` produces are those from before the failed push. -/
theorem push_error_state_unchanged (s : OpusRepacketizer) (p : List Nat) (e : Error)
    (h : (Repacketizer.push s p).2 = .error e) :
    (Repacketizer.push s p).1 = s ∧
      Repacketizer.frames (Repacketizer.push s p).1 = Repacketizer.frames s ∧
      ∀ buf, Repacketizer.out (Repacketizer.push s p).1 buf = Repacketizer.out s buf := by
  have hfst : (Repacketizer.push s p).1 = s := by
    unfold Repacketizer.push at h ⊢
    split_ifs at h ⊢
    · rfl
    · rfl
    · cases hc : opus_repacketizer_cat s p with
      | mk s2 res =>
        cases res with
        | ok u =>
          cases u
          simp [hc] at h
        | error e2 =>
          have := cat_error_state s p e2 (by rw [hc])
          rw [hc] at this
          simpa [hc] using this
  exact ⟨hfst, by rw [hfst], fun buf => by rw [hfst]⟩

/-- Witness for C5 at a concrete malformed push (frame-count code 1 with an
odd remainder). -/
theorem push_error_state_unchanged_witness :
    (Repacketizer.push ⟨0, [[7]]⟩ [1, 8, 9, 10]).1 = ⟨0, [[7]]⟩ ∧
      Repacketizer.frames (Repacketizer.push ⟨0, [[7]]⟩ [1, 8, 9, 10]).1 =
        Repacketizer.frames ⟨0, [[7]]⟩ ∧
      ∀ buf, Repacketizer.out (Repacketizer.push ⟨0, [[7]]⟩ [1, 8, 9, 10]).1 buf =
        Repacketizer.out ⟨0, [[7]]⟩ buf :=
  push_error_state_unchanged ⟨0, [[7]]⟩ [1, 8, 9, 10] .invalidPacket (by decide)

/-- A successful native emit fits in the requested capacity. -/
theorem out_range_ok_length (s : OpusRepacketizer) (lo hi : Int) (maxlen : Nat)
    (enc : List Nat) (h : opus_repacketizer_out_range s lo hi maxlen = .ok enc) :
    enc.length ≤ maxlen := by
  unfold opus_repacketizer_out_range at h
  split_ifs at h with h1 h2
  all_goals cases h
  omega

/-- C8: the read side of the repacketizer is idempotent — after a successful
`out` into a buffer, calling `out` again with that buffer (unchanged state,
no intervening push or reset) succeeds, reports the same byte count, and
leaves the buffer byte-identical. -/
theorem out_idempotent (s : OpusRepacketizer) (buf : List Nat) (n : Nat)
    (buf1 : List Nat) (h : Repacketizer.out s buf = .ok (n, buf1)) :
    Repacketizer.out s buf1 = .ok (n, buf1) := by
  unfold Repacketizer.out at h ⊢
  split_ifs at h with h1 h2
  cases he : opus_repacketizer_out s buf.length with
  | error e2 => simp [he] at h
  | ok enc =>
    simp only [he, Except.ok.injEq, Prod.mk.injEq] at h
    obtain ⟨hn, hbuf⟩ := h
    have hlen : enc.length ≤ buf.length :=
      out_range_ok_length s 0 (s.frames.length : Int) buf.length enc he
    have hlen1 : buf1.length = buf.length := by
      subst hbuf
      simp
      omega
    have hne : ¬ buf1.isEmpty = true := by
      rw [List.isEmpty_iff_length_eq_zero, hlen1]
      rw [List.isEmpty_iff_length_eq_zero] at h1
      exact h1
    rw [if_neg hne, if_neg (by rw [hlen1]; exact h2), hlen1, he]
    subst hbuf hn
    simp [List.drop_left]

/-- Witness for C8 at a concrete one-frame state. -/
theorem out_idempotent_witness :
    Repacketizer.out ⟨0, [[7]]⟩ [3, 1, 1, 7, 0] = .ok (4, [3, 1, 1, 7, 0]) :=
  out_idempotent ⟨0, [[7]]⟩ [0, 0, 0, 0, 0] 4 [3, 1, 1, 7, 0] (by decide)

/-- The sizes recorded in a span layout are the sizes it was built from. -/
theorem spansFrom_map_snd (start : Nat) (szs : List Nat) :
    (spansFrom start szs).map Prod.snd = szs := by
  induction szs generalizing start with
  | nil => rfl
  | cons a l ih => simp [spansFrom, ih]

/-- A span layout has one span per size. -/
theorem spansFrom_length (start : Nat) (szs : List Nat) :
    (spansFrom start szs).length = szs.length := by
  simpa using congrArg List.length (spansFrom_map_snd start szs)

/-- Reading `m` length descriptors yields `m` sizes. -/
theorem readSizes_length (m : Nat) (bytes : List Nat) (szs : List Nat) (k : Nat)
    (h : readSizes m bytes = some (szs, k)) : szs.length = m := by
  induction m generalizing bytes szs k with
  | zero =>
    unfold readSizes at h
    simp only [Option.some.injEq, Prod.mk.injEq] at h
    rw [← h.1]
    rfl
  | succ m ih =>
    unfold readSizes at h
    cases hp : parseSize bytes with
    | none => simp [hp] at h
    | some v =>
      obtain ⟨sz, k1⟩ := v
      simp only [hp] at h
      cases hr : readSizes m (bytes.drop k1) with
      | none => simp [hr] at h
      | some w =>
        obtain ⟨szs2, k2⟩ := w
        simp only [hr, Option.some.injEq, Prod.mk.injEq] at h
        rw [← h.1]
        simp [ih (bytes.drop k1) szs2 k2 hr]

/-- Shape of a successful native parse: the span count equals the TOC-implied
frame count, and the payload offset plus the sum of all span sizes stays
within the packet. -/
theorem parse_ok_shape (packet : List Nat) (r : ParseResult)
    (h : opus_packet_parse packet = .ok r) :
    r.spans.length = impliedFrameCount packet ∧
      (1 ≤ r.spans.length ∧ r.spans.length ≤ 48) ∧
      r.payloadOffset + (r.spans.map Prod.snd).sum ≤ packet.length := by
  unfold opus_packet_parse at h
  unfold impliedFrameCount
  cases packet with
  | nil => cases h
  | cons toc body =>
    simp only [] at h
    rcases hm : toc % 4 with _ | (_ | (_ | c4)) <;> rw [hm] at h <;> simp only [] at h
    · -- code 0
      cases h
      refine ⟨by simp [hm], by norm_num, ?_⟩
      simp only [List.map_cons, List.map_nil, List.sum_cons, List.sum_nil,
        List.length_cons]
      omega
    · -- code 1
      by_cases hev : body.length % 2 = 0
      · rw [if_pos hev] at h
        cases h
        refine ⟨by simp [hm], by norm_num, ?_⟩
        simp only [List.map_cons, List.map_nil, List.sum_cons, List.sum_nil,
          List.length_cons]
        omega
      · rw [if_neg hev] at h
        cases h
    · -- code 2
      cases hp : parseSize body with
      | none => simp [hp] at h
      | some v =>
        obtain ⟨sz, k⟩ := v
        rw [hp] at h
        simp only [] at h
        by_cases hle : 1 + k + sz ≤ body.length + 1
        · rw [if_pos hle] at h
          cases h
          refine ⟨by simp [hm], by norm_num, ?_⟩
          simp only [List.map_cons, List.map_nil, List.sum_cons, List.sum_nil,
            List.length_cons]
          omega
        · rw [if_neg hle] at h
          cases h
    · -- code 3
      cases body with
      | nil => cases h
      | cons fc body2 =>
        simp only [] at h
        by_cases hcnt : fc % 64 = 0 ∨ 48 < fc % 64
        · rw [if_pos hcnt] at h
          cases h
        · rw [if_neg hcnt] at h
          cases hpad : (if fc / 64 % 2 = 1 then parseSize body2 else some (0, 0)) with
          | none =>
            rw [hpad] at h
            simp only [] at h
            cases h
          | some v =>
            obtain ⟨padLen, kp⟩ := v
            rw [hpad] at h
            simp only [] at h
            by_cases hov : body2.length + 2 < 2 + kp + padLen
            · rw [if_pos hov] at h
              cases h
            · rw [if_neg hov] at h
              by_cases hvbr : fc / 128 % 2 = 1
              · -- VBR
                rw [if_pos hvbr] at h
                cases hrs : readSizes (fc % 64 - 1) (body2.drop kp) with
                | none => simp [hrs] at h
                | some w =>
                  obtain ⟨szs, consumed⟩ := w
                  rw [hrs] at h
                  simp only [] at h
                  by_cases hfit :
                      2 + kp + consumed + szs.sum ≤ body2.length + 2 - padLen
                  · rw [if_pos hfit] at h
                    cases h
                    have hl :=
                      readSizes_length (fc % 64 - 1) (body2.drop kp) szs consumed hrs
                    refine ⟨?_, ?_, ?_⟩
                    · simp only [spansFrom_length, List.length_append,
                        List.length_cons, List.length_nil, hl, hm]
                      omega
                    · simp only [spansFrom_length, List.length_append,
                        List.length_cons, List.length_nil, hl]
                      omega
                    · rw [spansFrom_map_snd]
                      simp only [List.sum_append, List.sum_cons, List.sum_nil,
                        List.length_cons]
                      omega
                  · rw [if_neg hfit] at h
                    cases h
              · -- CBR
                rw [if_neg hvbr] at h
                cases hps : parseSize (body2.drop kp) with
                | none => simp [hps] at h
                | some v2 =>
                  obtain ⟨sz, k⟩ := v2
                  rw [hps] at h
                  simp only [] at h
                  by_cases hfit :
                      2 + kp + k + (fc % 64 - 1) * sz ≤ body2.length + 2 - padLen
                  · rw [if_pos hfit] at h
                    cases h
                    refine ⟨?_, ?_, ?_⟩
                    · simp only [spansFrom_length, List.length_append,
                        List.length_replicate, List.length_cons, List.length_nil, hm]
                      omega
                    · simp only [spansFrom_length, List.length_append,
                        List.length_replicate, List.length_cons, List.length_nil]
                      omega
                    · rw [spansFrom_map_snd]
                      simp only [List.sum_append, List.sum_cons, List.sum_nil,
                        List.sum_replicate, smul_eq_mul, List.length_cons]
                      omega
                  · rw [if_neg hfit] at h
                    cases h

/-- Decoding inverts the §6 length-descriptor encoding, for any trailing
bytes. -/
theorem parseSize_encodeSize (v : Nat) (rest : List Nat) :
    parseSize (encodeSize v ++ rest) = some (v, v / 255 + 1) := by
  induction v using Nat.strong_induction_on with
  | _ v ih =>
    by_cases hv : v < 255
    · have hdiv : v / 255 = 0 := by omega
      unfold encodeSize
      rw [hdiv]
      simp only [List.replicate, List.nil_append, List.cons_append]
      unfold parseSize
      rw [if_neg (by omega)]
      have hvm : v % 255 = v := by omega
      rw [hvm]
    · have hdiv : v / 255 = (v - 255) / 255 + 1 := by omega
      have hmod : v % 255 = (v - 255) % 255 := by omega
      have hrepl : encodeSize v = 255 :: encodeSize (v - 255) := by
        unfold encodeSize
        rw [hdiv, hmod]
        rfl
      rw [hrepl, List.cons_append]
      unfold parseSize
      rw [if_pos rfl, ih (v - 255) (by omega)]
      simp only []
      have ha : 255 + (v - 255) = v := by omega
      have hb : (v - 255) / 255 + 1 + 1 = v / 255 + 1 := by omega
      rw [ha, hb]

/-- Byte length of a §6 length descriptor. -/
theorem encodeSize_length (v : Nat) : (encodeSize v).length = v / 255 + 1 := by
  simp [encodeSize]

/-- Reading back a run of encoded length descriptors recovers the sizes and
consumes exactly the descriptor bytes, for any trailing bytes. -/
theorem readSizes_encode (szs : List Nat) (rest : List Nat) :
    readSizes szs.length ((szs.map encodeSize).flatten ++ rest) =
      some (szs, ((szs.map encodeSize).flatten).length) := by
  induction szs generalizing rest with
  | nil => simp [readSizes]
  | cons a l ih =>
    simp only [List.map_cons, List.flatten_cons, List.length_cons]
    unfold readSizes
    rw [List.append_assoc, parseSize_encodeSize]
    simp only []
    have hd : (encodeSize a ++ ((l.map encodeSize).flatten ++ rest)).drop (a / 255 + 1) =
        (l.map encodeSize).flatten ++ rest := by
      rw [← encodeSize_length a]
      exact List.drop_left _ _
    rw [hd, ih]
    simp only [Option.some.injEq, Prod.mk.injEq, List.length_append,
      encodeSize_length]

/-- Total length of the §4.2 padded layout. -/
theorem padLayout_length (toc : Nat) (fs : List (List Nat)) (pa : Nat) :
    (padLayout toc fs pa).length = padBase fs + (pa / 255 + 1) + pa := by
  simp only [padLayout, padBase, List.length_cons, List.length_append,
    encodeSize_length, List.length_replicate, List.length_flatten]
  omega

/-- The padding amount returned by `padAmountFor` satisfies the exact §4.2
byte accounting. -/
theorem padAmountFor_spec (t pa : Nat) (h : padAmountFor t = some pa) :
    pa + pa / 255 = t := by
  unfold padAmountFor at h
  by_cases hm : t % 256 = 255
  · rw [if_pos hm] at h; cases h
  · rw [if_neg hm] at h
    simp only [Option.some.injEq] at h
    omega

/-- Rewriting the frame-count code to 3 preserves the TOC configuration
bits. -/
theorem tocBase_code3 (toc : Nat) : tocBase (tocBase toc + 3) = tocBase toc := by
  unfold tocBase
  omega

/-- The code-3 rewritten TOC byte carries frame-count code 3. -/
theorem tocBase_mod4 (toc : Nat) : (tocBase toc + 3) % 4 = 3 := by
  unfold tocBase
  omega

/-- The §4.3 code-3 encoding depends on the TOC byte only through its
configuration bits. -/
theorem encodeFramesCode3_tocBase (toc toc2 : Nat) (fs : List (List Nat))
    (h : tocBase toc = tocBase toc2) :
    encodeFramesCode3 toc fs = encodeFramesCode3 toc2 fs := by
  unfold encodeFramesCode3
  rw [h]

/-- The minimal encoding depends on the TOC byte only through its
configuration bits. -/
theorem encodeFramesMinimal_tocBase (toc toc2 : Nat) (fs : List (List Nat))
    (h : tocBase toc = tocBase toc2) :
    encodeFramesMinimal toc fs = encodeFramesMinimal toc2 fs := by
  unfold encodeFramesMinimal
  cases fs with
  | nil => exact encodeFramesCode3_tocBase _ _ _ h
  | cons f l =>
    cases l with
    | nil => simp only []; rw [h]
    | cons f2 l2 =>
      cases l2 with
      | nil => simp only []; rw [h]
      | cons f3 l3 => exact encodeFramesCode3_tocBase _ _ _ h

/-- Slices laid out by `spansFrom` over concatenated frame payloads recover
exactly those frames. -/
theorem sliceSpans_layout (fs : List (List Nat)) :
    ∀ (pre post : List Nat),
      sliceSpans (pre ++ fs.flatten ++ post)
        (spansFrom pre.length (fs.map List.length)) = fs := by
  induction fs with
  | nil => intro pre post; simp [sliceSpans, spansFrom]
  | cons f l ih =>
    intro pre post
    have hbuf : pre ++ (f :: l).flatten ++ post = (pre ++ f) ++ l.flatten ++ post := by
      simp [List.flatten_cons, List.append_assoc]
    rw [hbuf]
    simp only [List.map_cons, spansFrom, sliceSpans, List.map_cons]
    have hhead : ((((pre ++ f) ++ l.flatten ++ post).drop pre.length).take f.length) = f := by
      rw [List.append_assoc (pre ++ f), List.append_assoc pre f, List.drop_left]
      exact List.take_left _ _
    have htail : List.map (fun s => (((pre ++ f) ++ l.flatten ++ post).drop s.1).take s.2)
        (spansFrom (pre.length + f.length) (l.map List.length)) = l := by
      have hplen : pre.length + f.length = (pre ++ f).length := (List.length_append _ _).symm
      rw [hplen]
      exact ih (pre ++ f) post
    rw [hhead, htail]

/-- Dropping the last element of a list of naturals cannot increase the
sum. -/
theorem sum_dropLast_le (l : List Nat) : l.dropLast.sum ≤ l.sum := by
  by_cases hl : l = []
  · subst hl; simp
  · conv_rhs => rw [← List.dropLast_append_getLast hl]
    simp

/-- Parsing the §4.2 padded layout succeeds and recovers the rewritten TOC
byte, the payload offset past the descriptors, and one span per original
frame, with the padding region excluded. -/
theorem parse_padLayout (toc : Nat) (fs : List (List Nat)) (pa : Nat)
    (h1 : 1 ≤ fs.length) (h48 : fs.length ≤ 48) :
    opus_packet_parse (padLayout toc fs pa) =
      .ok ⟨tocBase toc + 3, 2 + (pa / 255 + 1) + (vbrDescBytes fs).length,
        spansFrom (2 + (pa / 255 + 1) + (vbrDescBytes fs).length)
          (fs.map List.length)⟩ := by
  unfold padLayout
  unfold opus_packet_parse
  simp only []
  rw [tocBase_mod4 toc]
  simp only []
  have hfc64 : (192 + fs.length) % 64 = fs.length := by omega
  rw [hfc64]
  rw [if_neg (by omega : ¬(fs.length = 0 ∨ 48 < fs.length))]
  rw [if_pos (by omega : (192 + fs.length) / 64 % 2 = 1)]
  have hps : parseSize (encodeSize pa ++ vbrDescBytes fs ++ fs.flatten ++
      List.replicate pa 0) = some (pa, pa / 255 + 1) := by
    rw [List.append_assoc, List.append_assoc]
    exact parseSize_encodeSize pa _
  rw [hps]
  simp only []
  have hov : ¬((encodeSize pa ++ vbrDescBytes fs ++ fs.flatten ++
      List.replicate pa 0).length + 2 < 2 + (pa / 255 + 1) + pa) := by
    simp only [List.length_append, encodeSize_length, List.length_replicate]
    omega
  rw [if_neg hov]
  rw [if_pos (by omega : (192 + fs.length) / 128 % 2 = 1)]
  have hdropbody : (encodeSize pa ++ vbrDescBytes fs ++ fs.flatten ++
      List.replicate pa 0).drop (pa / 255 + 1) =
      vbrDescBytes fs ++ fs.flatten ++ List.replicate pa 0 := by
    rw [List.append_assoc, List.append_assoc, ← encodeSize_length pa, List.drop_left,
      ← List.append_assoc]
  rw [hdropbody]
  have hlendl : ((fs.map List.length).dropLast).length = fs.length - 1 := by
    simp
  have hrs : readSizes (fs.length - 1)
      (vbrDescBytes fs ++ fs.flatten ++ List.replicate pa 0) =
      some ((fs.map List.length).dropLast, (vbrDescBytes fs).length) := by
    rw [← hlendl, List.append_assoc]
    exact readSizes_encode _ _
  rw [hrs]
  simp only []
  have hflat : fs.flatten.length = (fs.map List.length).sum := by simp
  have hlen : (encodeSize pa ++ vbrDescBytes fs ++ fs.flatten ++
      List.replicate pa 0).length =
      (pa / 255 + 1) + (vbrDescBytes fs).length + (fs.map List.length).sum + pa := by
    simp only [List.length_append, encodeSize_length, List.length_replicate, hflat]
  have hfit : 2 + (pa / 255 + 1) + (vbrDescBytes fs).length +
      ((fs.map List.length).dropLast).sum ≤
      (encodeSize pa ++ vbrDescBytes fs ++ fs.flatten ++
        List.replicate pa 0).length + 2 - pa := by
    rw [hlen]
    have := sum_dropLast_le (fs.map List.length)
    omega
  rw [if_pos hfit]
  have hfs_ne : fs ≠ [] := by
    intro hc
    subst hc
    simp at h1
  have hne : fs.map List.length ≠ [] := by
    simpa using hfs_ne
  have hdecomp : (fs.map List.length).dropLast ++ [(fs.map List.length).getLast hne] =
      fs.map List.length := List.dropLast_append_getLast hne
  have hsum : (fs.map List.length).sum =
      ((fs.map List.length).dropLast).sum + (fs.map List.length).getLast hne := by
    conv_lhs => rw [← hdecomp]
    simp
  have hlast : (fs.map List.length).dropLast ++
      [(encodeSize pa ++ vbrDescBytes fs ++ fs.flatten ++
          List.replicate pa 0).length + 2 - pa -
        (2 + (pa / 255 + 1) + (vbrDescBytes fs).length) -
        ((fs.map List.length).dropLast).sum] = fs.map List.length := by
    conv_rhs => rw [← hdecomp]
    congr 2
    rw [hlen]
    omega
  rw [hlast]

/-- Characterization of the wrapper's frame-extraction loop: on success the
returned frames are the slices of exactly the nonzero spans, all of them
bounds-checked against the packet. -/
theorem framesFromSpans_ok (packet : List Nat) :
    ∀ (spans : List (Nat × Nat)) (fs : List (List Nat)),
      framesFromSpans packet spans = some fs →
      fs = sliceSpans packet (spans.filter fun sp => sp.2 != 0) ∧
        ∀ sp ∈ spans.filter (fun sp => sp.2 != 0), sp.1 + sp.2 ≤ packet.length := by
  intro spans
  induction spans with
  | nil =>
    intro fs h
    unfold framesFromSpans at h
    simp only [Option.some.injEq] at h
    subst h
    exact ⟨rfl, by simp⟩
  | cons sp rest ih =>
    intro fs h
    obtain ⟨start, size⟩ := sp
    unfold framesFromSpans at h
    by_cases hz : size = 0
    · rw [if_pos hz] at h
      obtain ⟨hfs, hb⟩ := ih fs h
      subst hz
      refine ⟨by simpa [List.filter_cons] using hfs, ?_⟩
      intro sp hsp
      apply hb
      simpa [List.filter_cons] using hsp
    · rw [if_neg hz] at h
      by_cases hbound : start + size ≤ packet.length
      · rw [if_pos hbound] at h
        cases hr : framesFromSpans packet rest with
        | none => rw [hr] at h; cases h
        | some fs2 =>
          rw [hr] at h
          simp only [Option.some.injEq] at h
          obtain ⟨hfs, hb⟩ := ih fs2 hr
          subst h
          constructor
          · rw [hfs]
            simp [List.filter_cons, sliceSpans, hz]
          · intro sp hsp
            simp only [List.filter_cons] at hsp
            rw [if_pos (by simp [hz])] at hsp
            rcases List.mem_cons.1 hsp with hsp | hsp
            · subst hsp; exact hbound
            · exact hb sp hsp
      · rw [if_neg hbound] at h
        cases h

/-- Decomposition of a successful wrapper parse into the native parse result
and the extracted frames. -/
theorem packet_parse_ok_elim (packet : List Nat) (toc off : Nat)
    (frames : List (List Nat)) (h : packet_parse packet = .ok (toc, off, frames)) :
    ∃ r, opus_packet_parse packet = .ok r ∧ r.toc = toc ∧ r.payloadOffset = off ∧
      framesFromSpans packet r.spans = some frames := by
  unfold packet_parse at h
  by_cases h1 : packet.isEmpty = true
  · rw [if_pos h1] at h; cases h
  · rw [if_neg h1] at h
    by_cases h2 : i32Max < packet.length
    · rw [if_pos h2] at h; cases h
    · rw [if_neg h2] at h
      cases hp : opus_packet_parse packet with
      | error e => rw [hp] at h; simp only [] at h; cases h
      | ok r =>
        rw [hp] at h
        simp only [] at h
        cases hf : framesFromSpans packet r.spans with
        | none => rw [hf] at h; simp only [] at h; cases h
        | some fs =>
          rw [hf] at h
          simp only [Except.ok.injEq, Prod.mk.injEq] at h
          exact ⟨r, rfl, h.1, h.2.1, by rw [hf, h.2.2]⟩

/-- The slice of an in-bounds span has exactly the span's size. -/
theorem slice_length (packet : List Nat) (start size : Nat)
    (hb : start + size ≤ packet.length) :
    ((packet.drop start).take size).length = size := by
  simp only [List.length_take, List.length_drop]
  omega

/-- Dropping elements from a list of naturals cannot increase the sum. -/
theorem filter_map_snd_sum_le (spans : List (Nat × Nat)) (p : Nat × Nat → Bool) :
    ((spans.filter p).map Prod.snd).sum ≤ (spans.map Prod.snd).sum := by
  induction spans with
  | nil => simp
  | cons sp rest ih =>
    by_cases hp : p sp <;> simp [List.filter_cons, hp] <;> omega

/-- C3: the frame list returned by `packet_parse` is exactly the list of
TOC-implied frames (1, 2, or the code-3 count byte) with every zero-length
frame removed; in particular every returned frame is nonempty. -/
theorem parse_frames_toc_count (packet : List Nat) (toc off : Nat)
    (frames : List (List Nat)) (h : packet_parse packet = .ok (toc, off, frames)) :
    (∀ f ∈ frames, 0 < f.length) ∧
      ∃ r, opus_packet_parse packet = .ok r ∧
        r.spans.length = impliedFrameCount packet ∧
        frames = sliceSpans packet (r.spans.filter fun sp => sp.2 != 0) := by
  obtain ⟨r, hp, htoc, hoff, hf⟩ := packet_parse_ok_elim packet toc off frames h
  obtain ⟨hfs, hb⟩ := framesFromSpans_ok packet r.spans frames hf
  have hshape := parse_ok_shape packet r hp
  refine ⟨?_, r, hp, hshape.1, hfs⟩
  intro f hfmem
  rw [hfs] at hfmem
  obtain ⟨sp, hsp, hfeq⟩ := List.mem_map.1 hfmem
  have hsz : sp.2 ≠ 0 := by
    have := (List.mem_filter.1 hsp).2
    simpa using this
  have hbd := hb sp hsp
  rw [← hfeq]
  rw [slice_length packet sp.1 sp.2 hbd]
  omega

/-- Witness for C3: a VBR code-3 packet whose first frame has length zero;
the implied count is 2, the returned list has the single nonzero frame. -/
theorem parse_frames_toc_count_witness :
    (∀ f ∈ [[8, 9]], 0 < List.length f) ∧
      ∃ r, opus_packet_parse [3, 130, 0, 8, 9] = .ok r ∧
        r.spans.length = impliedFrameCount [3, 130, 0, 8, 9] ∧
        [[8, 9]] = sliceSpans [3, 130, 0, 8, 9]
          (r.spans.filter fun sp => sp.2 != 0) :=
  parse_frames_toc_count [3, 130, 0, 8, 9] 3 3 [[8, 9]] (by decide)

/-- C4: for every successful `packet_parse`, the payload offset plus the sum
of the returned frame lengths is bounded by the packet length, and every
returned frame is an in-bounds sub-span of the packet. -/
theorem parse_sum_invariant (packet : List Nat) (toc off : Nat)
    (frames : List (List Nat)) (h : packet_parse packet = .ok (toc, off, frames)) :
    off + (frames.map List.length).sum ≤ packet.length ∧
      ∀ f ∈ frames, ∃ start, start + f.length ≤ packet.length ∧
        f = (packet.drop start).take f.length := by
  obtain ⟨r, hp, htoc, hoff, hf⟩ := packet_parse_ok_elim packet toc off frames h
  obtain ⟨hfs, hb⟩ := framesFromSpans_ok packet r.spans frames hf
  have hshape := parse_ok_shape packet r hp
  constructor
  · have hmap : frames.map List.length =
        (r.spans.filter fun sp => sp.2 != 0).map Prod.snd := by
      rw [hfs, sliceSpans, List.map_map]
      refine List.map_congr_left ?_
      intro sp hsp
      exact slice_length packet sp.1 sp.2 (hb sp hsp)
    rw [hmap, ← hoff]
    have := filter_map_snd_sum_le r.spans (fun sp => sp.2 != 0)
    omega
  · intro f hfmem
    rw [hfs] at hfmem
    obtain ⟨sp, hsp, hfeq⟩ := List.mem_map.1 hfmem
    have hbd := hb sp hsp
    have hlen : f.length = sp.2 := by
      rw [← hfeq]
      exact slice_length packet sp.1 sp.2 hbd
    exact ⟨sp.1, by omega, by rw [hlen, ← hfeq]⟩

/-- Witness for C4 at a concrete code-2 packet. -/
theorem parse_sum_invariant_witness :
    2 + (([[8], [9, 10]].map List.length).sum) ≤ [2, 1, 8, 9, 10].length ∧
      ∀ f ∈ [[8], [9, 10]], ∃ start, start + List.length f ≤ [2, 1, 8, 9, 10].length ∧
        f = (List.take (List.length f) (List.drop start [2, 1, 8, 9, 10])) :=
  parse_sum_invariant [2, 1, 8, 9, 10] 2 2 [[8], [9, 10]] (by decide)

/-- C2: the 48-frame budget of the repacketizer — a push of a parsable,
TOC-compatible packet succeeds exactly while the accumulated frame count
stays within 48 (so accumulation can reach exactly 48), and a push whose
frames would make the count exceed 48 fails with the `CapacityExceeded`
kind, which the wrapper surfaces through `Error::from_code`. -/
theorem push_frame_budget (s : OpusRepacketizer) (p : List Nat) (r : ParseResult)
    (hp : opus_packet_parse p = .ok r)
    (hlen : p.length ≤ i32Max)
    (hcompat : s.frames.length = 0 ∨ tocBase s.toc = tocBase r.toc) :
    (s.frames.length + r.spans.length ≤ 48 →
        (Repacketizer.push s p).2 = .ok () ∧
        (Repacketizer.push s p).1.frames.length =
          s.frames.length + r.spans.length) ∧
      (48 < s.frames.length + r.spans.length →
        (opus_repacketizer_cat s p).2 = .error .capacityExceeded ∧
        Repacketizer.push s p =
          (s, .error (Error.from_code ErrKind.capacityExceeded.code))) := by
  have hne : ¬ p.isEmpty = true := by
    intro he
    rw [List.isEmpty_iff] at he
    subst he
    cases hp
  have hi : ¬ i32Max < p.length := by omega
  have hcompat2 : ¬ (s.frames.length ≠ 0 ∧ tocBase s.toc ≠ tocBase r.toc) := by
    rcases hcompat with h | h
    · exact fun hc => hc.1 h
    · exact fun hc => hc.2 h
  constructor
  · intro hle
    have hcat : opus_repacketizer_cat s p =
        ({ toc := if s.frames.length = 0 then r.toc else s.toc,
           frames := s.frames ++ sliceSpans p r.spans }, .ok ()) := by
      unfold opus_repacketizer_cat
      rw [hp]
      simp only [if_neg hcompat2, if_neg (by omega : ¬ 48 < s.frames.length + r.spans.length)]
    unfold Repacketizer.push
    rw [if_neg hne, if_neg hi, hcat]
    exact ⟨rfl, by simp [sliceSpans]⟩
  · intro hgt
    have hcat : opus_repacketizer_cat s p = (s, .error .capacityExceeded) := by
      unfold opus_repacketizer_cat
      rw [hp]
      simp only [if_neg hcompat2, if_pos hgt]
    refine ⟨by rw [hcat], ?_⟩
    unfold Repacketizer.push
    rw [if_neg hne, if_neg hi, hcat]

/-- Witness for C2: a state holding 47 frames accepts a one-frame packet,
reaching exactly 48; from 48 frames the same push fails with the
`CapacityExceeded` kind. -/
theorem push_frame_budget_witness :
    ((Repacketizer.push ⟨0, List.replicate 47 [7]⟩ [0, 9]).2 = .ok () ∧
        (Repacketizer.push ⟨0, List.replicate 47 [7]⟩ [0, 9]).1.frames.length = 48) ∧
      ((opus_repacketizer_cat ⟨0, List.replicate 48 [7]⟩ [0, 9]).2 =
          .error .capacityExceeded ∧
        Repacketizer.push ⟨0, List.replicate 48 [7]⟩ [0, 9] =
          (⟨0, List.replicate 48 [7]⟩,
            .error (Error.from_code ErrKind.capacityExceeded.code))) :=
  ⟨(push_frame_budget ⟨0, List.replicate 47 [7]⟩ [0, 9] ⟨0, 1, [(1, 1)]⟩ (by decide)
      (by decide) (Or.inr rfl)).1 (by decide),
    (push_frame_budget ⟨0, List.replicate 48 [7]⟩ [0, 9] ⟨0, 1, [(1, 1)]⟩ (by decide)
      (by decide) (Or.inr rfl)).2 (by decide)⟩

/-- C1 (amended): for a buffer whose first `len` bytes form a valid framed
packet in minimal (canonical) form, whenever `packet_pad` to `target_len`
succeeds, the subsequent `packet_unpad` succeeds, returns the original
logical length `len`, and leaves the first `len` bytes byte-identical to the
original packet. -/
theorem packet_pad_unpad_minimal (buf : List Nat) (len target : Nat) (buf2 : List Nat)
    (hcanon : isCanonicalPacket (buf.take len) = true)
    (hpad : packet_pad buf len target = .ok buf2) :
    ∃ buf3, packet_unpad buf2 target = .ok (len, buf3) ∧
      buf3.take len = buf.take len := by
  unfold packet_pad at hpad
  by_cases hT : target < len ∨ buf.length < target
  · rw [if_pos hT] at hpad; cases hpad
  · rw [if_neg hT] at hpad
    by_cases hI : i32Max < len ∨ i32Max < target
    · rw [if_pos hI] at hpad; cases hpad
    · rw [if_neg hI] at hpad
      cases hm : opus_packet_pad buf len target with
      | error e => rw [hm] at hpad; simp only [] at hpad; cases hpad
      | ok buf2' =>
        rw [hm] at hpad
        simp only [Except.ok.injEq] at hpad
        subst hpad
        unfold opus_packet_pad at hm
        unfold isCanonicalPacket at hcanon
        by_cases hTeq : target = len
        · -- no-op pad
          rw [if_pos hTeq] at hm
          simp only [Except.ok.injEq] at hm
          subst hm
          rw [hTeq]
          cases hp : opus_packet_parse (buf.take len) with
          | error e => rw [hp] at hcanon; cases hcanon
          | ok r =>
            rw [hp] at hcanon
            rw [beq_iff_eq] at hcanon
            have hlen2 : (buf.take len).length = len := by
              simp only [List.length_take]
              omega
            unfold packet_unpad
            rw [if_neg (by omega : ¬ buf.length < len)]
            rw [if_neg (by omega : ¬ i32Max < len)]
            unfold opus_packet_unpad
            rw [hp]
            simp only []
            rw [hcanon, hlen2]
            rw [if_neg (by omega : ¬ len < len)]
            refine ⟨buf.take len ++ buf.drop len, rfl, ?_⟩
            exact List.take_left' hlen2
        · -- real padding
          rw [if_neg hTeq] at hm
          cases hp : opus_packet_parse (buf.take len) with
          | error e => rw [hp] at hm; simp only [] at hm; cases hm
          | ok r =>
            rw [hp] at hm
            simp only [] at hm
            rw [hp] at hcanon
            rw [beq_iff_eq] at hcanon
            by_cases hbase :
                padBase (sliceSpans (buf.take len) r.spans) + 1 ≤ target
            · rw [if_pos hbase] at hm
              cases hpa : padAmountFor
                  (target - padBase (sliceSpans (buf.take len) r.spans) - 1) with
              | none => rw [hpa] at hm; simp only [] at hm; cases hm
              | some pa =>
                rw [hpa] at hm
                simp only [Except.ok.injEq] at hm
                have haccount := padAmountFor_spec _ _ hpa
                have hshape := parse_ok_shape (buf.take len) r hp
                have hfsl : (sliceSpans (buf.take len) r.spans).length =
                    r.spans.length := by simp [sliceSpans]
                have h1 : 1 ≤ (sliceSpans (buf.take len) r.spans).length := by
                  rw [hfsl]; exact hshape.2.1.1
                have h48 : (sliceSpans (buf.take len) r.spans).length ≤ 48 := by
                  rw [hfsl]; exact hshape.2.1.2
                have hplen : (padLayout r.toc (sliceSpans (buf.take len) r.spans) pa).length
                    = target := by
                  rw [padLayout_length]
                  omega
                have hbufeq : buf2' =
                    padLayout r.toc (sliceSpans (buf.take len) r.spans) pa ++
                      buf.drop target := hm.symm
                have hbuf2len : buf2'.length = buf.length := by
                  rw [hbufeq]
                  simp only [List.length_append, hplen, List.length_drop]
                  omega
                have htake : buf2'.take target =
                    padLayout r.toc (sliceSpans (buf.take len) r.spans) pa := by
                  rw [hbufeq]
                  exact List.take_left' hplen
                unfold packet_unpad
                rw [if_neg (by omega : ¬ buf2'.length < target)]
                rw [if_neg (by omega : ¬ i32Max < target)]
                unfold opus_packet_unpad
                rw [htake, parse_padLayout r.toc (sliceSpans (buf.take len) r.spans) pa h1 h48]
                simp only []
                have hslice : sliceSpans
                    (padLayout r.toc (sliceSpans (buf.take len) r.spans) pa)
                    (spansFrom
                      (2 + (pa / 255 + 1) +
                        (vbrDescBytes (sliceSpans (buf.take len) r.spans)).length)
                      ((sliceSpans (buf.take len) r.spans).map List.length)) =
                    sliceSpans (buf.take len) r.spans := by
                  have hsl := sliceSpans_layout (sliceSpans (buf.take len) r.spans)
                    ((tocBase r.toc + 3) :: (192 + (sliceSpans (buf.take len) r.spans).length) ::
                      (encodeSize pa ++ vbrDescBytes (sliceSpans (buf.take len) r.spans)))
                    (List.replicate pa 0)
                  have hpre : ((tocBase r.toc + 3) ::
                      (192 + (sliceSpans (buf.take len) r.spans).length) ::
                      (encodeSize pa ++ vbrDescBytes (sliceSpans (buf.take len) r.spans))).length =
                      2 + (pa / 255 + 1) +
                        (vbrDescBytes (sliceSpans (buf.take len) r.spans)).length := by
                    simp only [List.length_cons, List.length_append, encodeSize_length]
                    omega
                  have hbufshape : (tocBase r.toc + 3) ::
                      (192 + (sliceSpans (buf.take len) r.spans).length) ::
                      (encodeSize pa ++ vbrDescBytes (sliceSpans (buf.take len) r.spans)) ++
                      (sliceSpans (buf.take len) r.spans).flatten ++ List.replicate pa 0 =
                      padLayout r.toc (sliceSpans (buf.take len) r.spans) pa := by
                    simp [padLayout, List.append_assoc]
                  rw [hpre, hbufshape] at hsl
                  exact hsl
                rw [hslice]
                rw [encodeFramesMinimal_tocBase (tocBase r.toc + 3) r.toc _
                  (tocBase_code3 r.toc)]
                rw [hcanon]
                have hlen2 : (buf.take len).length = len := by
                  simp only [List.length_take]
                  omega
                rw [hlen2]
                rw [if_neg (by omega : ¬ target < len)]
                refine ⟨buf.take len ++ buf2'.drop len, rfl, ?_⟩
                exact List.take_left' hlen2
            · rw [if_neg hbase] at hm
              simp only [] at hm
              cases hm

/-- Counterexample to C1 as stated: `[0, 7]` is a valid, minimal-form
two-byte packet, and `target_len = 3` lies within `len <= target_len <=
capacity`, yet `packet_pad` fails — the §4.2 rewrite to the code-3
VBR-with-padding layout costs at least two extra bytes (frame-count byte and
padding descriptor), so no exact byte accounting reaches length 3 and the
claimed round trip cannot even start. -/
theorem packet_pad_unpad_roundtrip_cex :
    isCanonicalPacket ([0, 7, 0].take 2) = true ∧
      (2 ≤ 3 ∧ 3 ≤ [0, 7, 0].length) ∧
      packet_pad [0, 7, 0] 2 3 = .error .bufferTooSmall := by decide

/-- Witness for the amended C1 at the §8 concrete scenario: a single-frame
packet of logical length 10 padded to 15 and unpadded back. -/
theorem packet_pad_unpad_minimal_witness :
    ∃ buf3, packet_unpad [3, 193, 3, 7, 7, 7, 7, 7, 7, 7, 7, 7, 0, 0, 0] 15 =
        .ok (10, buf3) ∧
      buf3.take 10 = ((0 : Nat) :: (List.replicate 9 7 ++ List.replicate 5 0)).take 10 :=
  packet_pad_unpad_minimal ((0 : Nat) :: (List.replicate 9 7 ++ List.replicate 5 0)) 10 15
    [3, 193, 3, 7, 7, 7, 7, 7, 7, 7, 7, 7, 0, 0, 0] (by decide) (by decide)

end OpusCodec
